import Mathlib

/-!
Shallow embedding of `renpy/display/imagelike.py`: the `Solid` and `Frame`
displayables.  Python integers are modelled as `ℤ` (Python `//` is `Int.fdiv`
and `%` is `Int.fmod`, both of which floor like Python), Python floats as `ℚ`.
Raster contents are irrelevant to the claims; renders are modelled by the
sizes, tile counts, transforms and blits the code computes.
-/

namespace Imagelike

/-- Tile mode of a `Frame`: `False`, `True`, or `"integer"` in the source. -/
inductive TileMode where
  | off
  | simple
  | integer
deriving DecidableEq

/-- Result of the scale-or-tile step of `Frame.render.draw` for one grid cell:
the tile counts `xtiles, ytiles` and the size `tiledW, tiledH` of the render
that holds the (possibly tiled) block — the values of `csw, csh` after line 412
of `imagelike.py`.  The final scale pass runs iff `tiledW ≠ cdw ∨ tiledH ≠ cdh`,
with per-axis factors `tiledW/cdw` and `tiledH/cdh`. -/
structure CellOp where
  xtiles : ℤ
  ytiles : ℤ
  tiledW : ℤ
  tiledH : ℤ
deriving DecidableEq

/-- The scale-or-tile logic of `Frame.render.draw` (`imagelike.py` lines
385-422) for one grid cell.  `csw, csh` is the source subsurface size,
`cdw, cdh` the destination cell size. -/
def cellResize (mode : TileMode) (ratio : ℚ) (csw csh cdw cdh : ℤ) : CellOp :=
  if csw = cdw ∧ csh = cdh then
    ⟨1, 1, csw, csh⟩
  else if mode = .off then
    ⟨1, 1, csw, csh⟩
  else
    let xtiles := max 1 (cdw.fdiv csw + (if cdw.fmod csw ≠ 0 then 1 else 0))
    let ytiles := max 1 (cdh.fdiv csh + (if cdh.fmod csh ≠ 0 then 1 else 0))
    if (cdw.fmod csw ≠ 0 ∨ cdh.fmod csh ≠ 0) ∧ mode = .integer then
      let xtiles' := if ((cdw.fmod csw : ℚ) / (csw : ℚ)) < ratio then max 1 (xtiles - 1) else xtiles
      let ytiles' := if ((cdh.fmod csh : ℚ) / (csh : ℚ)) < ratio then max 1 (ytiles - 1) else ytiles
      ⟨xtiles', ytiles', csw * xtiles', csh * ytiles'⟩
    else
      ⟨xtiles, ytiles, cdw, cdh⟩

/-- Result of the scale-or-tile step of `Frame.sw_render.draw` for one cell:
tile counts, the size `surfW, surfH` of `surf` after the tile/crop step, and
`scaleFrom` — the size of the surface handed to `real_transform_scale`
(`none` when no scale call is made; the scale target is always `cdw, cdh`). -/
structure SWCellOp where
  xtiles : ℤ
  ytiles : ℤ
  surfW : ℤ
  surfH : ℤ
  scaleFrom : Option (ℤ × ℤ)
deriving DecidableEq

/-- The scale-or-tile logic of `Frame.sw_render.draw` (`imagelike.py` lines
521-556) for one grid cell. -/
def swCellResize (mode : TileMode) (ratio : ℚ) (csw csh cdw cdh : ℤ) : SWCellOp :=
  if cdw = csw ∧ cdh = csh then
    ⟨1, 1, csw, csh, none⟩
  else if mode = .off then
    ⟨1, 1, csw, csh, some (csw, csh)⟩
  else
    let xtiles0 := max 1 (cdw.fdiv csw + (if cdw.fmod csw ≠ 0 then 1 else 0))
    let ytiles0 := max 1 (cdh.fdiv csh + (if cdh.fmod csh ≠ 0 then 1 else 0))
    let xtiles := if (cdw.fmod csw ≠ 0 ∨ cdh.fmod csh ≠ 0) ∧ mode = .integer ∧
        ((cdw.fmod csw : ℚ) / (csw : ℚ)) < ratio then max 1 (xtiles0 - 1) else xtiles0
    let ytiles := if (cdw.fmod csw ≠ 0 ∨ cdh.fmod csh ≠ 0) ∧ mode = .integer ∧
        ((cdh.fmod csh : ℚ) / (csh : ℚ)) < ratio then max 1 (ytiles0 - 1) else ytiles0
    if mode = .simple then
      -- `surf = surf2.subsurface((0, 0, dstw, dsth))`; `srcsize` is unchanged,
      -- so the final `if dstsize != srcsize` is true and the scale call is made
      -- on the already-cropped surface of size `dstw, dsth`.
      ⟨xtiles, ytiles, cdw, cdh, some (cdw, cdh)⟩
    else
      let tw := csw * xtiles
      let th := csh * ytiles
      if cdw = tw ∧ cdh = th then ⟨xtiles, ytiles, tw, th, none⟩
      else ⟨xtiles, ytiles, tw, th, some (tw, th)⟩

/-- Border clamping from `Frame.render` (`imagelike.py` lines 309-326), one
axis.  `b1, b2` are the configured near/far border sizes (`self.left` and
`self.right`, or `self.top` and `self.bottom`), `s` the source extent, `d` the
destination extent.  Returns the clamped destination-space border pair. -/
def borderClamp (b1 b2 s d : ℤ) : ℤ × ℤ :=
  let bw := b1 + b2
  let xb := min (min bw (s - 2)) d
  if xb ≠ 0 ∧ bw ≠ 0 then
    ((b1 * xb).fdiv bw, (b2 * xb).fdiv bw)
  else
    (0, 0)

/-- The three column spans of the nine-slice grid in signed coordinates, in the
order `Frame.draw_pattern` visits them within one row; a column whose border is
zero is skipped. -/
def cols (left right : ℤ) : List (ℤ × ℤ) :=
  (if left ≠ 0 then [(0, left)] else [])
    ++ [(left, -right)]
    ++ (if right ≠ 0 then [(-right, 0)] else [])

/-- The three row spans of the nine-slice grid in signed coordinates, in the
order `Frame.draw_pattern` visits the rows; a row whose border is zero is
skipped. -/
def rows (top bottom : ℤ) : List (ℤ × ℤ) :=
  (if top ≠ 0 then [(0, top)] else [])
    ++ [(top, -bottom)]
    ++ (if bottom ≠ 0 then [(-bottom, 0)] else [])

namespace Frame

/-- `Frame.draw_pattern` (`imagelike.py` lines 435-463): the list of signed
cell rectangles `(x0, x1, y0, y1)` passed to `draw`, in call order. -/
def draw_pattern (left top right bottom : ℤ) : List (ℤ × ℤ × ℤ × ℤ) :=
  (if top ≠ 0 then
      (if left ≠ 0 then [(0, left, 0, top)] else [])
        ++ [(left, -right, 0, top)]
        ++ (if right ≠ 0 then [(-right, 0, 0, top)] else [])
    else [])
  ++ ((if left ≠ 0 then [(0, left, top, -bottom)] else [])
        ++ [(left, -right, top, -bottom)]
        ++ (if right ≠ 0 then [(-right, 0, top, -bottom)] else []))
  ++ (if bottom ≠ 0 then
      (if left ≠ 0 then [(0, left, -bottom, 0)] else [])
        ++ [(left, -right, -bottom, 0)]
        ++ (if right ≠ 0 then [(-right, 0, -bottom, 0)] else [])
    else [])

end Frame

/-- Resolution of one signed span `(p.1, p.2)` against an extent `w`
(`Frame.render.draw` lines 337-366, identically `Frame.sw_render.draw` lines
478-508): a non-negative start is measured from the near edge, a non-positive
end from the far edge. -/
def resolveIv (w : ℤ) (p : ℤ × ℤ) : ℤ × ℤ :=
  ((if 0 ≤ p.1 then p.1 else w + p.1), (if 0 < p.2 then p.2 else w + p.2))

/-- The set of destination pixels a resolved cell occupies in a `dw × dh`
destination raster. -/
def pixset (dw dh : ℤ) (c : ℤ × ℤ × ℤ × ℤ) : Finset (ℤ × ℤ) :=
  Finset.Ico (resolveIv dw (c.1, c.2.1)).1 (resolveIv dw (c.1, c.2.1)).2 ×ˢ
    Finset.Ico (resolveIv dh (c.2.2.1, c.2.2.2)).1 (resolveIv dh (c.2.2.1, c.2.2.2)).2

/-- A blit performed by `Frame.render.draw`: the source subsurface rectangle
`(sx0, sy0, csw, csh)`, the scale-or-tile result, and the destination
offset `(dx0, dy0)`. -/
structure Blit where
  src : ℤ × ℤ × ℤ × ℤ
  op : CellOp
  dst : ℤ × ℤ
deriving DecidableEq

/-- A blit performed by `Frame.sw_render.draw`. -/
structure SWBlit where
  src : ℤ × ℤ × ℤ × ℤ
  op : SWCellOp
  dst : ℤ × ℤ
deriving DecidableEq

/-- `Frame.render.draw` (`imagelike.py` lines 331-426) on one signed cell:
`none` when the routine returns before extracting a subsurface (and hence
before any tiling, scaling or blitting), otherwise the blit it performs. -/
def drawGL (mode : TileMode) (ratio : ℚ) (sw sh dw dh : ℤ) (c : ℤ × ℤ × ℤ × ℤ) :
    Option Blit :=
  let dx := resolveIv dw (c.1, c.2.1)
  let sx := resolveIv sw (c.1, c.2.1)
  let dy := resolveIv dh (c.2.2.1, c.2.2.2)
  let sy := resolveIv sh (c.2.2.1, c.2.2.2)
  if sx.1 = sx.2 ∨ sy.1 = sy.2 then none
  else
    let csw := sx.2 - sx.1
    let csh := sy.2 - sy.1
    let cdw := dx.2 - dx.1
    let cdh := dy.2 - dy.1
    if csw ≤ 0 ∨ csh ≤ 0 ∨ cdh ≤ 0 ∨ cdw ≤ 0 then none
    else some ⟨(sx.1, sy.1, csw, csh), cellResize mode ratio csw csh cdw cdh, (dx.1, dy.1)⟩

/-- `Frame.sw_render.draw` (`imagelike.py` lines 472-559) on one signed cell:
`none` when the routine returns at the quick exit, otherwise the blit it
performs. -/
def drawSW (mode : TileMode) (ratio : ℚ) (sw sh dw dh : ℤ) (c : ℤ × ℤ × ℤ × ℤ) :
    Option SWBlit :=
  let dx := resolveIv dw (c.1, c.2.1)
  let sx := resolveIv sw (c.1, c.2.1)
  let dy := resolveIv dh (c.2.2.1, c.2.2.2)
  let sy := resolveIv sh (c.2.2.1, c.2.2.2)
  if sx.1 = sx.2 ∨ sy.1 = sy.2 ∨ dx.2 ≤ dx.1 ∨ dy.2 ≤ dy.1 then none
  else
    let csw := sx.2 - sx.1
    let csh := sy.2 - sy.1
    let cdw := dx.2 - dx.1
    let cdh := dy.2 - dy.1
    some ⟨(sx.1, sy.1, csw, csh), swCellResize mode ratio csw csh cdw cdh, (dx.1, dy.1)⟩

/-- The persisted border fields of a `Frame`, including the legacy symmetric
`xborder`/`yborder` pair. -/
structure FrameFields where
  left : ℤ
  top : ℤ
  right : ℤ
  bottom : ℤ
  xborder : ℤ
  yborder : ℤ
deriving DecidableEq

namespace Frame

/-- `Frame.after_upgrade` (`imagelike.py` lines 195-200). -/
def after_upgrade (version : ℤ) (f : FrameFields) : FrameFields :=
  if version < 2 then
    { f with left := f.xborder, right := f.xborder, top := f.yborder, bottom := f.yborder }
  else f

end Frame

/-- The outcome of `Solid.render` (`imagelike.py` lines 66-96): the size of the
returned render, the size of the solid texture blitted into it (`none` when no
texture is created and no blit is performed), and the diagonal entries of the
forward and reverse transforms (`none` when no transform is set). -/
structure SolidOut where
  w : ℚ
  h : ℚ
  tex : Option (ℚ × ℚ)
  fwd : Option (ℚ × ℚ)
  rev : Option (ℚ × ℚ)
deriving DecidableEq

namespace Solid

/-- The effective width tested by `Solid.render` (`imagelike.py` lines 66-80):
the requested width clamped to `xminimum` and, when both clamped dimensions are
non-zero, to the minimum virtual pixel size `minw`. -/
def effWidth (xminimum yminimum minw : ℚ) (width height : ℚ) : ℚ :=
  let w1 := max xminimum width
  let h1 := max yminimum height
  if w1 ≠ 0 ∧ h1 ≠ 0 then max w1 minw else w1

/-- The effective height tested by `Solid.render`, symmetric to `effWidth`. -/
def effHeight (xminimum yminimum minh : ℚ) (width height : ℚ) : ℚ :=
  let w1 := max xminimum width
  let h1 := max yminimum height
  if w1 ≠ 0 ∧ h1 ≠ 0 then max h1 minh else h1

/-- `Solid.render` (`imagelike.py` lines 66-96).  `color` is `self.color`,
`styleColor` the style fallback `self.style.color`; `xminimum, yminimum` come
from the style, and `minw, minh` from `draw_to_virt.transform(1, 1)`. -/
def render (color styleColor : Option String) (xminimum yminimum minw minh : ℚ)
    (width height : ℚ) : SolidOut :=
  let w1 := max xminimum width
  let h1 := max yminimum height
  let c := match color with
    | some c => some c
    | none => styleColor
  let w2 := effWidth xminimum yminimum minw width height
  let h2 := effHeight xminimum yminimum minh width height
  if c = none ∨ w2 ≤ 0 ∨ h2 ≤ 0 then
    ⟨w1, h1, none, none, none⟩
  else if w2 < 10 ∨ h2 < 10 then
    ⟨w1, h1, some (w2, h2), none, none⟩
  else
    ⟨w1, h1, some (10, 10), some (10 / w2, 10 / h2), some (w2 / 10, h2 / 10)⟩

end Solid

end Imagelike

/-! ## Helper lemmas -/

namespace Imagelike

/-- Splitting `xb` proportionally with two independent floor divisions loses at
most one pixel: for `bw = b1 + b2 > 0`, the sum of the two floor quotients lies
in `[xb - 1, xb]`. -/
theorem fdiv_pair_sum_bounds (b1 b2 xb : ℤ) (hbw : 0 < b1 + b2) :
    xb - 1 ≤ (b1 * xb).fdiv (b1 + b2) + (b2 * xb).fdiv (b1 + b2) ∧
    (b1 * xb).fdiv (b1 + b2) + (b2 * xb).fdiv (b1 + b2) ≤ xb := by
  set bw := b1 + b2 with hbwdef
  rw [Int.fdiv_eq_ediv _ (le_of_lt hbw), Int.fdiv_eq_ediv _ (le_of_lt hbw)]
  have hA := Int.ediv_add_emod (b1 * xb) bw
  have hB := Int.ediv_add_emod (b2 * xb) bw
  have hA0 : 0 ≤ (b1 * xb) % bw := Int.emod_nonneg _ (ne_of_gt hbw)
  have hB0 : 0 ≤ (b2 * xb) % bw := Int.emod_nonneg _ (ne_of_gt hbw)
  have hA1 : (b1 * xb) % bw < bw := Int.emod_lt_of_pos _ hbw
  have hB1 : (b2 * xb) % bw < bw := Int.emod_lt_of_pos _ hbw
  have hsum : bw * (b1 * xb / bw + b2 * xb / bw) + ((b1 * xb) % bw + (b2 * xb) % bw)
      = bw * xb := by ring_nf; ring_nf at hA hB; linarith
  constructor
  · nlinarith [hsum]
  · nlinarith [hsum]

end Imagelike

/-! ## Claim theorems -/

namespace Imagelike

/-- C5: for non-negative `left, right` and `sourceWidth ≥ 2`, `destWidth ≥ 0`,
the clamped borders computed by `Frame.render` satisfy
`destLeft + destRight ≤ min (left+right) (min (sourceWidth-2) destWidth)`,
and both are `0` when that minimum or the border sum is `0`. -/
theorem borderClamp_bounded (b1 b2 s d : ℤ)
    (h1 : 0 ≤ b1) (h2 : 0 ≤ b2) (hs : 2 ≤ s) (hd : 0 ≤ d) :
    (borderClamp b1 b2 s d).1 + (borderClamp b1 b2 s d).2 ≤ min (min (b1 + b2) (s - 2)) d ∧
    (min (min (b1 + b2) (s - 2)) d = 0 ∨ b1 + b2 = 0 → borderClamp b1 b2 s d = (0, 0)) := by
  unfold borderClamp
  by_cases hg : min (min (b1 + b2) (s - 2)) d ≠ 0 ∧ b1 + b2 ≠ 0
  · rw [if_pos hg]
    have hbw : 0 < b1 + b2 := by omega
    refine ⟨(fdiv_pair_sum_bounds b1 b2 _ hbw).2, ?_⟩
    intro h
    exact absurd h (by tauto)
  · rw [if_neg hg]
    refine ⟨by omega, fun _ => rfl⟩

/-- Witness for `borderClamp_bounded` at concrete input. -/
theorem borderClamp_bounded_witness :
    (borderClamp 5 5 100 50).1 + (borderClamp 5 5 100 50).2 ≤ min (min 10 98) 50 ∧
    (min (min (5 + 5 : ℤ) (100 - 2)) 50 = 0 ∨ (5 + 5 : ℤ) = 0 →
      borderClamp 5 5 100 50 = (0, 0)) :=
  borderClamp_bounded 5 5 100 50 (by decide) (by decide) (by decide) (by decide)

end Imagelike

namespace Imagelike

/-- C1 counterexample: with `left = right = 1`, `sourceWidth = 3`,
`destWidth = 10` the combined border is `xb = min (1+1) (min (3-2) 10) = 1`,
`xb > 0` and `left+right > 0`, yet the code's `destLeft + destRight = 0 ≠ xb`,
so `destRight` is not `xb - destLeft`. -/
theorem borderClamp_split_cex :
    ¬(0 < min (min ((1 : ℤ) + 1) (3 - 2)) 10 → 0 < (1 : ℤ) + 1 →
      (borderClamp 1 1 3 10).2 = min (min ((1 : ℤ) + 1) (3 - 2)) 10 - (borderClamp 1 1 3 10).1) := by
  decide

/-- C1 (amended): with non-negative borders, `sourceWidth ≥ 2` and
`destWidth ≥ 0`, when `xb > 0` and `left+right > 0` the code splits the borders
as `destLeft = left*xb // (left+right)` and `destRight = right*xb //
(left+right)` (both floor divisions), so `xb - 1 ≤ destLeft + destRight ≤ xb`
(the sum can fall short of `xb` by one); otherwise both are `0`. -/
theorem borderClamp_split (b1 b2 s d : ℤ)
    (h1 : 0 ≤ b1) (h2 : 0 ≤ b2) (hs : 2 ≤ s) (hd : 0 ≤ d) :
    (0 < min (min (b1 + b2) (s - 2)) d → 0 < b1 + b2 →
      borderClamp b1 b2 s d =
        ((b1 * min (min (b1 + b2) (s - 2)) d).fdiv (b1 + b2),
         (b2 * min (min (b1 + b2) (s - 2)) d).fdiv (b1 + b2)) ∧
      min (min (b1 + b2) (s - 2)) d - 1 ≤
        (borderClamp b1 b2 s d).1 + (borderClamp b1 b2 s d).2 ∧
      (borderClamp b1 b2 s d).1 + (borderClamp b1 b2 s d).2 ≤
        min (min (b1 + b2) (s - 2)) d) ∧
    (min (min (b1 + b2) (s - 2)) d = 0 ∨ b1 + b2 = 0 → borderClamp b1 b2 s d = (0, 0)) := by
  constructor
  · intro hxb hbw
    have hcond : min (min (b1 + b2) (s - 2)) d ≠ 0 ∧ b1 + b2 ≠ 0 := ⟨ne_of_gt hxb, ne_of_gt hbw⟩
    have heq : borderClamp b1 b2 s d =
        ((b1 * min (min (b1 + b2) (s - 2)) d).fdiv (b1 + b2),
         (b2 * min (min (b1 + b2) (s - 2)) d).fdiv (b1 + b2)) := by
      unfold borderClamp
      rw [if_pos hcond]
    refine ⟨heq, ?_, ?_⟩
    · rw [heq]
      exact (fdiv_pair_sum_bounds b1 b2 _ hbw).1
    · rw [heq]
      exact (fdiv_pair_sum_bounds b1 b2 _ hbw).2
  · intro h
    unfold borderClamp
    rw [if_neg (by tauto)]

/-- Witness for `borderClamp_split`: `left = 3, right = 2, sourceWidth = 100,
destWidth = 50` gives `xb = 5`, `destLeft = 3`, `destRight = 2`. -/
theorem borderClamp_split_witness :
    ((0 : ℤ) < min (min ((3 : ℤ) + 2) (100 - 2)) 50 → (0 : ℤ) < 3 + 2 →
      borderClamp 3 2 100 50 =
        (((3 : ℤ) * min (min ((3 : ℤ) + 2) (100 - 2)) 50).fdiv ((3 : ℤ) + 2),
         ((2 : ℤ) * min (min ((3 : ℤ) + 2) (100 - 2)) 50).fdiv ((3 : ℤ) + 2)) ∧
      min (min ((3 : ℤ) + 2) (100 - 2)) 50 - 1 ≤
        (borderClamp 3 2 100 50).1 + (borderClamp 3 2 100 50).2 ∧
      (borderClamp 3 2 100 50).1 + (borderClamp 3 2 100 50).2 ≤
        min (min ((3 : ℤ) + 2) (100 - 2)) 50) ∧
    (min (min ((3 : ℤ) + 2) (100 - 2)) 50 = 0 ∨ (3 : ℤ) + 2 = 0 →
      borderClamp 3 2 100 50 = (0, 0)) :=
  borderClamp_split 3 2 100 50 (by decide) (by decide) (by decide) (by decide)

/-- C10: for any version below 2, `Frame.after_upgrade` maps the legacy
symmetric borders onto the four-sided representation:
`left = right = xborder` and `top = bottom = yborder`. -/
theorem after_upgrade_legacy (version : ℤ) (f : FrameFields) (h : version < 2) :
    (Frame.after_upgrade version f).left = f.xborder ∧
    (Frame.after_upgrade version f).right = f.xborder ∧
    (Frame.after_upgrade version f).top = f.yborder ∧
    (Frame.after_upgrade version f).bottom = f.yborder := by
  simp [Frame.after_upgrade, h]

/-- Witness for `after_upgrade_legacy`: `xborder = 5, yborder = 3` at version 1
upgrades to `left = 5, right = 5, top = 3, bottom = 3`. -/
theorem after_upgrade_legacy_witness :
    (Frame.after_upgrade 1 ⟨0, 0, 0, 0, 5, 3⟩).left = 5 ∧
    (Frame.after_upgrade 1 ⟨0, 0, 0, 0, 5, 3⟩).right = 5 ∧
    (Frame.after_upgrade 1 ⟨0, 0, 0, 0, 5, 3⟩).top = 3 ∧
    (Frame.after_upgrade 1 ⟨0, 0, 0, 0, 5, 3⟩).bottom = 3 :=
  after_upgrade_legacy 1 ⟨0, 0, 0, 0, 5, 3⟩ (by decide)

end Imagelike

namespace Imagelike

/-- C9: `Solid.render` with no constructed color and no style fallback color,
or with a zero-or-negative effective width or height, returns an empty render:
no texture is created, no blit is performed, and no transform is set. -/
theorem solid_render_no_blit (color styleColor : Option String)
    (xminimum yminimum minw minh width height : ℚ)
    (h : (color = none ∧ styleColor = none) ∨
      Solid.effWidth xminimum yminimum minw width height ≤ 0 ∨
      Solid.effHeight xminimum yminimum minh width height ≤ 0) :
    (Solid.render color styleColor xminimum yminimum minw minh width height).tex = none ∧
    (Solid.render color styleColor xminimum yminimum minw minh width height).fwd = none ∧
    (Solid.render color styleColor xminimum yminimum minw minh width height).rev = none := by
  unfold Solid.render
  rw [if_pos]
  · exact ⟨rfl, rfl, rfl⟩
  · rcases h with ⟨hc, hs⟩ | h | h
    · subst hc hs
      exact Or.inl rfl
    · exact Or.inr (Or.inl h)
    · exact Or.inr (Or.inr h)

/-- Witness for `solid_render_no_blit`: no color anywhere, and separately a
zero-area request. -/
theorem solid_render_no_blit_witness :
    (Solid.render none none 0 0 1 1 5 5).tex = none ∧
    (Solid.render none none 0 0 1 1 5 5).fwd = none ∧
    (Solid.render none none 0 0 1 1 5 5).rev = none :=
  solid_render_no_blit none none 0 0 1 1 5 5 (Or.inl ⟨rfl, rfl⟩)

/-- C8: `Solid.render` with a usable color and positive effective size: below
the fixed threshold 10 on either axis, the solid texture is created at the full
effective size and no transform is set; otherwise a 10×10 swatch is created and
presented through `forward = diag (10/w) (10/h)` and
`reverse = diag (w/10) (h/10)`, an exact inverse pair — no `w × h` texture is
filled. -/
theorem solid_render_swatch (color styleColor : Option String)
    (xminimum yminimum minw minh width height : ℚ) (c : String)
    (hc : color = some c)
    (hw : 0 < Solid.effWidth xminimum yminimum minw width height)
    (hh : 0 < Solid.effHeight xminimum yminimum minh width height) :
    ((Solid.effWidth xminimum yminimum minw width height < 10 ∨
        Solid.effHeight xminimum yminimum minh width height < 10) →
      (Solid.render color styleColor xminimum yminimum minw minh width height).tex =
        some (Solid.effWidth xminimum yminimum minw width height,
              Solid.effHeight xminimum yminimum minh width height) ∧
      (Solid.render color styleColor xminimum yminimum minw minh width height).fwd = none ∧
      (Solid.render color styleColor xminimum yminimum minw minh width height).rev = none) ∧
    (10 ≤ Solid.effWidth xminimum yminimum minw width height →
      10 ≤ Solid.effHeight xminimum yminimum minh width height →
      (Solid.render color styleColor xminimum yminimum minw minh width height).tex =
        some (10, 10) ∧
      (Solid.render color styleColor xminimum yminimum minw minh width height).fwd =
        some (10 / Solid.effWidth xminimum yminimum minw width height,
              10 / Solid.effHeight xminimum yminimum minh width height) ∧
      (Solid.render color styleColor xminimum yminimum minw minh width height).rev =
        some (Solid.effWidth xminimum yminimum minw width height / 10,
              Solid.effHeight xminimum yminimum minh width height / 10) ∧
      10 / Solid.effWidth xminimum yminimum minw width height *
        (Solid.effWidth xminimum yminimum minw width height / 10) = 1 ∧
      10 / Solid.effHeight xminimum yminimum minh width height *
        (Solid.effHeight xminimum yminimum minh width height / 10) = 1) := by
  subst hc
  unfold Solid.render
  rw [if_neg (by push_neg; exact ⟨by simp, by linarith, by linarith⟩)]
  constructor
  · intro hsmall
    rw [if_pos hsmall]
    exact ⟨rfl, rfl, rfl⟩
  · intro hw10 hh10
    rw [if_neg (by push_neg; exact ⟨by linarith, by linarith⟩)]
    refine ⟨rfl, rfl, rfl, ?_, ?_⟩
    · field_simp
    · field_simp

end Imagelike

namespace Imagelike

/-- The repeat-count expression of the source, `cdw // csw + (1 if cdw % csw
else 0)`, is exactly the ceiling of `cdw / csw` for a positive divisor. -/
theorem ceil_div_fdiv (a b : ℤ) (hb : 0 < b) :
    ⌈(a : ℚ) / (b : ℚ)⌉ = a.fdiv b + (if a.fmod b ≠ 0 then 1 else 0) := by
  have hbQ : (0 : ℚ) < (b : ℚ) := by exact_mod_cast hb
  have hid := Int.fdiv_add_fmod a b
  have hm0 : 0 ≤ a.fmod b := Int.fmod_nonneg' a hb
  have hm1 : a.fmod b < b := Int.fmod_lt_of_pos a hb
  have hidQ : (b : ℚ) * (a.fdiv b : ℤ) + ((a.fmod b : ℤ) : ℚ) = (a : ℚ) := by
    exact_mod_cast congrArg (fun z : ℤ => (z : ℚ)) hid
  by_cases hm : a.fmod b = 0
  · rw [if_neg (by simpa using hm)]
    rw [hm] at hidQ
    simp only [Int.cast_zero, add_zero] at hidQ
    rw [Int.ceil_eq_iff]
    constructor
    · rw [lt_div_iff₀ hbQ]
      push_cast
      nlinarith [hidQ]
    · rw [div_le_iff₀ hbQ]
      push_cast
      nlinarith [hidQ]
  · rw [if_pos (by simpa using hm)]
    have hm0' : 0 < a.fmod b := lt_of_le_of_ne hm0 (Ne.symm hm)
    rw [Int.ceil_eq_iff]
    constructor
    · rw [lt_div_iff₀ hbQ]
      push_cast
      have : (0 : ℚ) < ((a.fmod b : ℤ) : ℚ) := by exact_mod_cast hm0'
      nlinarith [hidQ]
    · rw [div_le_iff₀ hbQ]
      push_cast
      have : ((a.fmod b : ℤ) : ℚ) < (b : ℚ) := by exact_mod_cast hm1
      nlinarith [hidQ]

end Imagelike

namespace Imagelike

/-- Facts about the repeat count `max 1 (a // b + (1 if a % b else 0))` for
positive `a, b`: the tiles cover `a`; a destination smaller than one tile
uses exactly one tile; an exact multiple uses exactly `a // b` tiles. -/
theorem tiles_cover (a b : ℤ) (ha : 0 < a) (hb : 0 < b) :
    a ≤ max 1 (a.fdiv b + (if a.fmod b ≠ 0 then 1 else 0)) * b ∧
    (a < b → max 1 (a.fdiv b + (if a.fmod b ≠ 0 then 1 else 0)) = 1) ∧
    (a.fmod b = 0 → max 1 (a.fdiv b + (if a.fmod b ≠ 0 then 1 else 0)) = a.fdiv b) := by
  have hid := Int.fdiv_add_fmod a b
  have hm0 : 0 ≤ a.fmod b := Int.fmod_nonneg' a hb
  have hm1 : a.fmod b < b := Int.fmod_lt_of_pos a hb
  have hf0 : 0 ≤ a.fdiv b := Int.fdiv_nonneg (le_of_lt ha) (le_of_lt hb)
  refine ⟨?_, ?_, ?_⟩
  · by_cases hm : a.fmod b = 0
    · rw [if_neg (by simpa using hm)]
      have hf1 : 1 ≤ a.fdiv b := by nlinarith
      rw [add_zero, max_eq_right hf1]
      nlinarith
    · rw [if_pos (by simpa using hm)]
      have hf1 : 1 ≤ a.fdiv b + 1 := by omega
      rw [max_eq_right hf1]
      nlinarith
  · intro hab
    have hf : a.fdiv b = 0 := by
      rw [Int.fdiv_eq_ediv _ (le_of_lt hb)]
      exact Int.ediv_eq_zero_of_lt (le_of_lt ha) hab
    rw [hf]
    by_cases hm : a.fmod b = 0
    · omega
    · rw [if_pos (by simpa using hm)]
      norm_num
  · intro hm
    rw [if_neg (by simpa using hm), add_zero]
    have hf1 : 1 ≤ a.fdiv b := by nlinarith
    omega

end Imagelike

namespace Imagelike

/-- A cell whose source size equals its destination size is used as-is:
one tile, no tiling render, no scale pass. -/
theorem cellResize_ident (mode : TileMode) (ratio : ℚ) (csw csh : ℤ) :
    cellResize mode ratio csw csh csw csh = ⟨1, 1, csw, csh⟩ := by
  simp [cellResize]

/-- Unfolding of `cellResize` in Simple mode on a size-mismatched cell. -/
theorem cellResize_simple_eq (ratio : ℚ) (csw csh cdw cdh : ℤ)
    (hne : ¬(csw = cdw ∧ csh = cdh)) :
    cellResize .simple ratio csw csh cdw cdh =
      ⟨max 1 (cdw.fdiv csw + (if cdw.fmod csw ≠ 0 then 1 else 0)),
       max 1 (cdh.fdiv csh + (if cdh.fmod csh ≠ 0 then 1 else 0)), cdw, cdh⟩ := by
  simp only [cellResize, if_neg hne]
  simp

/-- A size-matched cell in the software path: no tiling, no scale call. -/
theorem swCellResize_ident (mode : TileMode) (ratio : ℚ) (csw csh : ℤ) :
    swCellResize mode ratio csw csh csw csh = ⟨1, 1, csw, csh, none⟩ := by
  simp [swCellResize]

/-- Unfolding of `swCellResize` in Simple mode on a size-mismatched cell. -/
theorem swCellResize_simple_eq (ratio : ℚ) (csw csh cdw cdh : ℤ)
    (hne : ¬(cdw = csw ∧ cdh = csh)) :
    swCellResize .simple ratio csw csh cdw cdh =
      ⟨max 1 (cdw.fdiv csw + (if cdw.fmod csw ≠ 0 then 1 else 0)),
       max 1 (cdh.fdiv csh + (if cdh.fmod csh ≠ 0 then 1 else 0)), cdw, cdh,
       some (cdw, cdh)⟩ := by
  simp only [swCellResize, if_neg hne]
  simp

/-- C4: under Simple tile mode, for every cell with positive source and
destination extents, the repeat count per axis is `max 1 ⌈destExtent /
sourceExtent⌉`, the tiles cover the destination extent
(`repeatCount * sourceExtent ≥ destExtent`), the tiled render is created (and
hence clipped) at exactly the destination size with no final scale pass
(`tiledW = cdw`, `tiledH = cdh`), and a destination smaller than one tile
still uses one tile.  In the software path the cropped surface also has
exactly the destination size and any `real_transform_scale` call is
size-preserving. -/
theorem cellResize_simple_crop (ratio : ℚ) (csw csh cdw cdh : ℤ)
    (hcsw : 0 < csw) (hcsh : 0 < csh) (hcdw : 0 < cdw) (hcdh : 0 < cdh) :
    (cellResize .simple ratio csw csh cdw cdh).xtiles = max 1 ⌈(cdw : ℚ) / (csw : ℚ)⌉ ∧
    (cellResize .simple ratio csw csh cdw cdh).ytiles = max 1 ⌈(cdh : ℚ) / (csh : ℚ)⌉ ∧
    cdw ≤ (cellResize .simple ratio csw csh cdw cdh).xtiles * csw ∧
    cdh ≤ (cellResize .simple ratio csw csh cdw cdh).ytiles * csh ∧
    (cellResize .simple ratio csw csh cdw cdh).tiledW = cdw ∧
    (cellResize .simple ratio csw csh cdw cdh).tiledH = cdh ∧
    (cdw < csw → (cellResize .simple ratio csw csh cdw cdh).xtiles = 1) ∧
    (swCellResize .simple ratio csw csh cdw cdh).surfW = cdw ∧
    (swCellResize .simple ratio csw csh cdw cdh).surfH = cdh ∧
    ((swCellResize .simple ratio csw csh cdw cdh).scaleFrom = none ∨
      (swCellResize .simple ratio csw csh cdw cdh).scaleFrom = some (cdw, cdh)) := by
  have hcx := tiles_cover cdw csw hcdw hcsw
  have hcy := tiles_cover cdh csh hcdh hcsh
  have hx := ceil_div_fdiv cdw csw hcsw
  have hy := ceil_div_fdiv cdh csh hcsh
  by_cases heq : csw = cdw ∧ csh = cdh
  · obtain ⟨rfl, rfl⟩ := heq
    rw [cellResize_ident, swCellResize_ident]
    have c1 : ⌈(csw : ℚ) / (csw : ℚ)⌉ = 1 := by
      rw [div_self (by positivity : (csw : ℚ) ≠ 0)]
      exact Int.ceil_one
    have c2 : ⌈(csh : ℚ) / (csh : ℚ)⌉ = 1 := by
      rw [div_self (by positivity : (csh : ℚ) ≠ 0)]
      exact Int.ceil_one
    refine ⟨by simp [c1], by simp [c2], by simpa using le_refl csw,
      by simpa using le_refl csh, rfl, rfl, fun _ => rfl, rfl, rfl, Or.inl rfl⟩
  · rw [cellResize_simple_eq ratio csw csh cdw cdh heq,
      swCellResize_simple_eq ratio csw csh cdw cdh (by tauto)]
    dsimp only
    exact ⟨by rw [hx], by rw [hy], hcx.1, hcy.1, rfl, rfl, fun h => hcx.2.1 h, rfl, rfl,
      Or.inr rfl⟩

/-- Witness for `cellResize_simple_crop`: a `10 × 10` source cell into a
`15 × 25` destination is tiled and cropped to exactly `15 × 25`, the tiles
covering it. -/
theorem cellResize_simple_crop_witness :
    (cellResize .simple (1 / 2) 10 10 15 25).tiledW = 15 ∧
    (cellResize .simple (1 / 2) 10 10 15 25).tiledH = 25 ∧
    (15 : ℤ) ≤ (cellResize .simple (1 / 2) 10 10 15 25).xtiles * 10 := by
  have h := cellResize_simple_crop (1 / 2) 10 10 15 25 (by decide) (by decide)
    (by decide) (by decide)
  exact ⟨h.2.2.2.2.1, h.2.2.2.2.2.1, h.2.2.1⟩

end Imagelike

namespace Imagelike

/-- C3: under Integer tile mode, on a cell axis where the destination extent is
not an exact multiple of the source extent, with `f = (cdw mod csw) / csw`: if
`f < ratio` strictly the repeat count is the ceiling count minus one floored at
1, otherwise (including `f = ratio`) it stays the ceiling count; the block kept
for scaling consists of exactly `xtiles` whole tiles (`tiledW = csw * xtiles`,
not cropped to `cdw`). -/
theorem cellResize_integer_tiebreak (ratio : ℚ) (csw csh cdw cdh : ℤ)
    (hcsw : 0 < csw) (hcsh : 0 < csh) (hcdw : 0 < cdw) (hcdh : 0 < cdh)
    (hx : cdw.fmod csw ≠ 0) :
    (((cdw.fmod csw : ℤ) : ℚ) / (csw : ℚ) < ratio →
      (cellResize .integer ratio csw csh cdw cdh).xtiles =
        max 1 (⌈(cdw : ℚ) / (csw : ℚ)⌉ - 1)) ∧
    (¬(((cdw.fmod csw : ℤ) : ℚ) / (csw : ℚ) < ratio) →
      (cellResize .integer ratio csw csh cdw cdh).xtiles = ⌈(cdw : ℚ) / (csw : ℚ)⌉) ∧
    (cellResize .integer ratio csw csh cdw cdh).tiledW =
      csw * (cellResize .integer ratio csw csh cdw cdh).xtiles := by
  have hne : ¬(csw = cdw ∧ csh = cdh) := by
    rintro ⟨rfl, -⟩
    exact hx Int.fmod_self
  have hf0 : 0 ≤ cdw.fdiv csw := Int.fdiv_nonneg (le_of_lt hcdw) (le_of_lt hcsw)
  have hxt0 : max 1 (cdw.fdiv csw + (if cdw.fmod csw ≠ 0 then 1 else 0)) =
      ⌈(cdw : ℚ) / (csw : ℚ)⌉ := by
    rw [ceil_div_fdiv _ _ hcsw, if_pos hx, max_eq_right (by omega)]
  have hoff : (TileMode.integer = TileMode.off) = False := by simp
  have hint : (TileMode.integer = TileMode.integer) = True := by simp
  simp only [cellResize, if_neg hne, hoff, hint, if_false, and_true]
  rw [if_pos (Or.inl hx)]
  refine ⟨fun hlt => ?_, fun hlt => ?_, ?_⟩
  · simp only [if_pos hlt]
    rw [hxt0]
  · simp only [if_neg hlt]
    exact hxt0
  · rfl

/-- Witness for `cellResize_integer_tiebreak`: the boundary instance
`sourceExtent = 10`, `destExtent = 15`, `ratio = 0.5`: the leftover fraction
`0.5` is not `< 0.5`, so the ceiling count 2 is kept and the block is the full
20 pixels wide (then scaled down to 15). -/
theorem cellResize_integer_tiebreak_witness :
    (cellResize .integer (1 / 2) 10 10 15 15).xtiles = 2 ∧
    (cellResize .integer (1 / 2) 10 10 15 15).tiledW = 20 := by
  have h := cellResize_integer_tiebreak (1 / 2) 10 10 15 15 (by decide) (by decide)
    (by decide) (by decide) (by decide)
  have hm : (15 : ℤ).fmod 10 = 5 := by decide
  have hnl : ¬((((15 : ℤ).fmod 10 : ℤ) : ℚ) / ((10 : ℤ) : ℚ) < 1 / 2) := by
    rw [hm]
    norm_num
  have hceil : ⌈((15 : ℤ) : ℚ) / ((10 : ℤ) : ℚ)⌉ = 2 := by
    rw [ceil_div_fdiv 15 10 (by decide)]
    decide
  have hx := h.2.1 hnl
  rw [hceil] at hx
  exact ⟨hx, by rw [h.2.2, hx]; decide⟩

/-- C2 counterexample: `sourceExtent = 10`, `destExtent = 20` on x is an exact
multiple (`20 mod 10 = 0`, quotient 2), but with the y axis inexact
(`cdh = 15`) and `ratio = 0.5` the code uses `xtiles = 1 ≠ 2` and a tiled
block of width `10 ≠ 20`, which is then rescaled — the x decision is not
independent of y. -/
theorem cellResize_integer_exact_cex :
    ¬((20 : ℤ).fmod 10 = 0 →
      (cellResize .integer (1 / 2) 10 10 20 15).xtiles = (20 : ℤ).fdiv 10 ∧
      (cellResize .integer (1 / 2) 10 10 20 15).tiledW = 20) := by
  intro h
  have heval : cellResize .integer (1 / 2) 10 10 20 15 = ⟨1, 2, 10, 20⟩ := by
    have h1 : (20 : ℤ).fmod 10 = 0 := by decide
    have h2 : (15 : ℤ).fmod 10 = 5 := by decide
    have h3 : (20 : ℤ).fdiv 10 = 2 := by decide
    have h4 : (15 : ℤ).fdiv 10 = 1 := by decide
    rw [cellResize]
    simp only [h1, h2, h3, h4]
    norm_num
    decide
  have := (h (by decide)).1
  rw [heval] at this
  exact absurd this (by decide)

/-- C2 (amended): under Integer tile mode the x and y tile decisions are not
independent.  When the destination extents of **both** axes are exact
multiples of their source extents, each axis uses exactly
`destExtent / sourceExtent` tiles and no scaling is applied
(`tiledW = cdw, tiledH = cdh`).  When x is exact but y is not and
`ratio > 0`, the x repeat count drops to `max 1 (cdw/csw - 1)` and the kept
block is `csw * xtiles` wide (rescaled afterwards). -/
theorem cellResize_integer_exact (ratio : ℚ) (csw csh cdw cdh : ℤ)
    (hcsw : 0 < csw) (hcsh : 0 < csh) (hcdw : 0 < cdw) (hcdh : 0 < cdh) :
    (cdw.fmod csw = 0 → cdh.fmod csh = 0 →
      cellResize .integer ratio csw csh cdw cdh =
        ⟨cdw.fdiv csw, cdh.fdiv csh, cdw, cdh⟩) ∧
    (cdw.fmod csw = 0 → cdh.fmod csh ≠ 0 → 0 < ratio →
      (cellResize .integer ratio csw csh cdw cdh).xtiles = max 1 (cdw.fdiv csw - 1) ∧
      (cellResize .integer ratio csw csh cdw cdh).tiledW =
        csw * max 1 (cdw.fdiv csw - 1)) := by
  constructor
  · intro hx hy
    have hidx := Int.fdiv_add_fmod cdw csw
    have hidy := Int.fdiv_add_fmod cdh csh
    have hfx : 1 ≤ cdw.fdiv csw := by nlinarith
    have hfy : 1 ≤ cdh.fdiv csh := by nlinarith
    by_cases heq : csw = cdw ∧ csh = cdh
    · obtain ⟨rfl, rfl⟩ := heq
      rw [cellResize_ident]
      have e1 : csw.fdiv csw = 1 := Int.fdiv_self (ne_of_gt hcsw)
      have e2 : csh.fdiv csh = 1 := Int.fdiv_self (ne_of_gt hcsh)
      rw [e1, e2]
    · have hoff : (TileMode.integer = TileMode.off) = False := by simp
      have hint : (TileMode.integer = TileMode.integer) = True := by simp
      simp only [cellResize, if_neg heq, hoff, hint, if_false, and_true]
      rw [if_neg (by simp [hx, hy])]
      simp only [hx, hy, ne_eq, not_true_eq_false, if_false, add_zero]
      congr 1 <;> omega
  · intro hx hy hr
    have hidx := Int.fdiv_add_fmod cdw csw
    have hfx : 1 ≤ cdw.fdiv csw := by nlinarith
    have hne : ¬(csw = cdw ∧ csh = cdh) := by
      rintro ⟨-, rfl⟩
      exact hy Int.fmod_self
    have hoff : (TileMode.integer = TileMode.off) = False := by simp
    have hint : (TileMode.integer = TileMode.integer) = True := by simp
    simp only [cellResize, if_neg hne, hoff, hint, if_false, and_true]
    rw [if_pos (Or.inr hy)]
    have hcond : ((cdw.fmod csw : ℤ) : ℚ) / (csw : ℚ) < ratio := by
      rw [hx]
      simpa using hr
    simp only [if_pos hcond]
    have hxt0 : max 1 (cdw.fdiv csw + (if cdw.fmod csw ≠ 0 then 1 else 0)) = cdw.fdiv csw := by
      rw [if_neg (by simpa using hx), add_zero, max_eq_right hfx]
    rw [hxt0]
    exact ⟨rfl, rfl⟩

/-- Witness for `cellResize_integer_exact`: `10 × 10` source cell into a
`20 × 30` destination cell uses exactly `2 × 3` tiles with no scaling. -/
theorem cellResize_integer_exact_witness :
    cellResize .integer (1 / 2) 10 10 20 30 = ⟨2, 3, 20, 30⟩ := by
  have h := (cellResize_integer_exact (1 / 2) 10 10 20 30 (by decide) (by decide)
    (by decide) (by decide)).1 (by decide) (by decide)
  rw [h]
  decide

end Imagelike

namespace Imagelike

/-- `Frame.draw_pattern` is the row-major product of the row spans and the
column spans. -/
theorem draw_pattern_eq (left top right bottom : ℤ) :
    Frame.draw_pattern left top right bottom =
      (rows top bottom).flatMap fun yr =>
        (cols left right).map fun xr => (xr.1, xr.2, yr.1, yr.2) := by
  simp only [Frame.draw_pattern, cols, rows]
  split_ifs <;> simp [List.flatMap]

/-- Resolving a span anchored at the near edge. -/
theorem resolveIv_near (w a b : ℤ) (ha : 0 ≤ a) (hb : 0 < b) :
    resolveIv w (a, b) = (a, b) := by
  simp [resolveIv, ha, hb]

/-- Resolving a span from a near-edge start to a far-edge end. -/
theorem resolveIv_mid (w a b : ℤ) (ha : 0 ≤ a) (hb : 0 ≤ b) :
    resolveIv w (a, -b) = (a, w - b) := by
  simp only [resolveIv, if_pos ha, if_neg (by omega : ¬(0 < -b))]
  simp [sub_eq_add_neg]

/-- Resolving a span anchored at the far edge. -/
theorem resolveIv_far (w a : ℤ) (ha : 0 < a) :
    resolveIv w (-a, 0) = (w - a, w) := by
  simp only [resolveIv, if_neg (by omega : ¬(0 ≤ -a)), if_neg (by omega : ¬(0 < (0 : ℤ)))]
  rw [Prod.mk.injEq]
  omega

end Imagelike

namespace Imagelike

/-- The rows of the nine-slice grid follow the same span pattern as the
columns. -/
theorem rows_eq_cols (top bottom : ℤ) : rows top bottom = cols top bottom := rfl

/-- Two cells whose resolved x-intervals are ordered occupy disjoint pixel
sets. -/
theorem pixset_disj_x (dw dh : ℤ) (c c' : ℤ × ℤ × ℤ × ℤ)
    (h : (resolveIv dw (c.1, c.2.1)).2 ≤ (resolveIv dw (c'.1, c'.2.1)).1) :
    Disjoint (pixset dw dh c) (pixset dw dh c') := by
  rw [Finset.disjoint_left]
  rintro ⟨x, y⟩ hm hm'
  simp only [pixset, Finset.mem_product, Finset.mem_Ico] at hm hm'
  omega

/-- Two cells whose resolved y-intervals are ordered occupy disjoint pixel
sets. -/
theorem pixset_disj_y (dw dh : ℤ) (c c' : ℤ × ℤ × ℤ × ℤ)
    (h : (resolveIv dh (c.2.2.1, c.2.2.2)).2 ≤ (resolveIv dh (c'.2.2.1, c'.2.2.2)).1) :
    Disjoint (pixset dw dh c) (pixset dw dh c') := by
  rw [Finset.disjoint_left]
  rintro ⟨x, y⟩ hm hm'
  simp only [pixset, Finset.mem_product, Finset.mem_Ico] at hm hm'
  omega

/-- The columns of the grid resolve, in order, to intervals each of which ends
no later than the next begins. -/
theorem cols_pairwise (l r w : ℤ) (hl : 0 ≤ l) (hr : 0 ≤ r) (hw : l + r ≤ w) :
    (cols l r).Pairwise fun p q => (resolveIv w p).2 ≤ (resolveIv w q).1 := by
  unfold cols
  split_ifs with h1 h2 h2 <;>
    simp only [List.cons_append, List.nil_append, List.singleton_append,
      List.pairwise_cons, List.forall_mem_cons, List.forall_mem_nil,
      List.not_mem_nil, and_true, true_and, or_false, false_or]
  all_goals repeat' apply And.intro
  all_goals
    first
      | exact List.Pairwise.nil
      | exact trivial
      | (dsimp only [resolveIv]; split_ifs <;> omega)
      | (intro x hx
         rcases hx with rfl | rfl | rfl
         all_goals (dsimp only [resolveIv]; split_ifs <;> omega))
      | (intro x hx
         rcases hx with rfl | rfl
         all_goals (dsimp only [resolveIv]; split_ifs <;> omega))
      | (intro x hx
         rcases hx with rfl
         all_goals (dsimp only [resolveIv]; split_ifs <;> omega))

/-- The resolved widths of the grid columns sum to the full destination
width. -/
theorem cols_width_sum (l r w : ℤ) (hl : 0 ≤ l) (hr : 0 ≤ r) (hw : l + r ≤ w) :
    ((cols l r).map fun p => ((resolveIv w p).2 - (resolveIv w p).1).toNat).sum
      = w.toNat := by
  unfold cols
  split_ifs with h1 h2 h2 <;>
    simp only [List.cons_append, List.nil_append, List.singleton_append, List.map_cons,
      List.map_nil, List.sum_cons, List.sum_nil] <;>
    (dsimp only [resolveIv]; split_ifs <;> omega)

end Imagelike

namespace Imagelike

/-- Sums distribute over `List.flatMap`. -/
theorem sum_flatMap_nat {α : Type} (l : List α) (f : α → List ℕ) :
    (l.flatMap f).sum = (l.map fun a => (f a).sum).sum := by
  induction l with
  | nil => simp
  | cons a t ih => simp [ih]

/-- C6: with clamped non-negative borders (`left + right ≤ destWidth`,
`top + bottom ≤ destHeight`), the cells enumerated by `Frame.draw_pattern`
partition the destination raster exactly: no two enumerated cells' destination
pixel sets overlap, and the pixel areas of all enumerated cells sum to
`destWidth * destHeight`. -/
theorem draw_pattern_partition (l t r b dw dh : ℤ)
    (hl : 0 ≤ l) (ht : 0 ≤ t) (hr : 0 ≤ r) (hb : 0 ≤ b)
    (hx : l + r ≤ dw) (hy : t + b ≤ dh) :
    ((Frame.draw_pattern l t r b).map (pixset dw dh)).Pairwise Disjoint ∧
    ((Frame.draw_pattern l t r b).map fun c => (pixset dw dh c).card).sum =
      dw.toNat * dh.toNat := by
  have hcols := cols_pairwise l r dw hl hr hx
  have hrows := cols_pairwise t b dh ht hb hy
  rw [← rows_eq_cols] at hrows
  constructor
  · rw [draw_pattern_eq, List.map_flatMap, List.pairwise_flatMap]
    constructor
    · intro yr _
      rw [List.map_map, List.pairwise_map]
      exact hcols.imp fun hpq => pixset_disj_x dw dh _ _ hpq
    · refine hrows.imp ?_
      intro yr yr' hpq u hu v hv
      rw [List.map_map, List.mem_map] at hu hv
      obtain ⟨xr, -, rfl⟩ := hu
      obtain ⟨xr', -, rfl⟩ := hv
      exact pixset_disj_y dw dh _ _ hpq
  · rw [draw_pattern_eq, List.map_flatMap, sum_flatMap_nat]
    have hinner : ∀ yr : ℤ × ℤ,
        ((((cols l r).map fun xr => (xr.1, xr.2, yr.1, yr.2)).map
            fun c => (pixset dw dh c).card).sum)
          = ((resolveIv dh yr).2 - (resolveIv dh yr).1).toNat * dw.toNat := by
      intro yr
      rw [List.map_map]
      have hfun : ((fun c => (pixset dw dh c).card) ∘
            fun xr : ℤ × ℤ => (xr.1, xr.2, yr.1, yr.2))
          = fun xr : ℤ × ℤ => ((resolveIv dw xr).2 - (resolveIv dw xr).1).toNat *
              ((resolveIv dh yr).2 - (resolveIv dh yr).1).toNat := by
        funext xr
        simp only [Function.comp_apply, pixset, Finset.card_product, Int.card_Ico,
          Prod.mk.eta]
      rw [hfun, List.sum_map_mul_right, cols_width_sum l r dw hl hr hx]
      ring
    have hmap : ((rows t b).map fun yr =>
          ((((cols l r).map fun xr => (xr.1, xr.2, yr.1, yr.2)).map
            fun c => (pixset dw dh c).card).sum))
        = (rows t b).map fun yr =>
            ((resolveIv dh yr).2 - (resolveIv dh yr).1).toNat * dw.toNat := by
      exact List.map_congr_left fun yr _ => hinner yr
    rw [hmap, List.sum_map_mul_right, rows_eq_cols, cols_width_sum t b dh ht hb hy]
    exact Nat.mul_comm _ _

end Imagelike

namespace Imagelike

/-- Witness for `draw_pattern_partition` at a concrete grid. -/
theorem draw_pattern_partition_witness :
    ((Frame.draw_pattern 2 3 4 1).map (pixset 10 8)).Pairwise Disjoint ∧
    ((Frame.draw_pattern 2 3 4 1).map fun c => (pixset 10 8 c).card).sum =
      (10 : ℤ).toNat * (8 : ℤ).toNat :=
  draw_pattern_partition 2 3 4 1 10 8 (by decide) (by decide) (by decide) (by decide)
    (by decide) (by decide)

/-- Membership in the column list of the grid. -/
theorem mem_cols {xr : ℤ × ℤ} {l r : ℤ} (h : xr ∈ cols l r) :
    (xr = (0, l) ∧ l ≠ 0) ∨ xr = (l, -r) ∨ (xr = (-r, 0) ∧ r ≠ 0) := by
  unfold cols at h
  split_ifs at h <;> simp only [List.mem_append, List.mem_singleton,
    List.not_mem_nil, or_false, false_or] at h <;> tauto

set_option maxHeartbeats 2000000 in
/-- C7: for every grid cell enumerated by `Frame.draw_pattern` under clamped
borders, if the cell's resolved source width, source height, destination width
or destination height is zero or negative, both draw routines return at their
guards: no subsurface is extracted, nothing is tiled or scaled, and no blit is
performed. -/
theorem draw_skips_degenerate (mode : TileMode) (ratio : ℚ)
    (l t r b sw sh dw dh : ℤ)
    (hl : 0 ≤ l) (ht : 0 ≤ t) (hr : 0 ≤ r) (hb : 0 ≤ b)
    (hxs : l + r ≤ sw - 2) (hxd : l + r ≤ dw)
    (hys : t + b ≤ sh - 2) (hyd : t + b ≤ dh)
    (c : ℤ × ℤ × ℤ × ℤ) (hc : c ∈ Frame.draw_pattern l t r b)
    (hdeg : (resolveIv sw (c.1, c.2.1)).2 - (resolveIv sw (c.1, c.2.1)).1 ≤ 0 ∨
      (resolveIv sh (c.2.2.1, c.2.2.2)).2 - (resolveIv sh (c.2.2.1, c.2.2.2)).1 ≤ 0 ∨
      (resolveIv dw (c.1, c.2.1)).2 - (resolveIv dw (c.1, c.2.1)).1 ≤ 0 ∨
      (resolveIv dh (c.2.2.1, c.2.2.2)).2 - (resolveIv dh (c.2.2.1, c.2.2.2)).1 ≤ 0) :
    drawGL mode ratio sw sh dw dh c = none ∧ drawSW mode ratio sw sh dw dh c = none := by
  rw [draw_pattern_eq, List.mem_flatMap] at hc
  obtain ⟨yr, hyr, hc⟩ := hc
  rw [List.mem_map] at hc
  obtain ⟨xr, hxr, rfl⟩ := hc
  rw [rows_eq_cols] at hyr
  rcases mem_cols hxr with ⟨rfl, hL⟩ | rfl | ⟨rfl, hR⟩ <;>
    rcases mem_cols hyr with ⟨rfl, hT⟩ | rfl | ⟨rfl, hB⟩ <;>
      dsimp only at hdeg ⊢ <;>
        simp only [drawGL, drawSW, resolveIv] at hdeg ⊢ <;>
          (split_ifs at hdeg ⊢ <;> first | (exact ⟨rfl, rfl⟩) | (exfalso; omega))

/-- Witness for `draw_skips_degenerate`: borders `1,1,1,1` on a `4 × 4` source
into a `2 × 2` destination make the centre cell's destination width zero, and
both draw routines skip it. -/
theorem draw_skips_degenerate_witness :
    drawGL .simple (1 / 2) 4 4 2 2 (1, -1, 1, -1) = none ∧
    drawSW .simple (1 / 2) 4 4 2 2 (1, -1, 1, -1) = none :=
  draw_skips_degenerate .simple (1 / 2) 1 1 1 1 4 4 2 2 (by decide) (by decide)
    (by decide) (by decide) (by decide) (by decide) (by decide) (by decide)
    (1, -1, 1, -1) (by decide) (by decide)

end Imagelike

namespace Imagelike

/-- Witness for `solid_render_swatch`: a 500×500 request with color `"#fff"`
uses a 10×10 swatch with forward ratios `1/50 = 0.02` and reverse ratios
`50`. -/
theorem solid_render_swatch_witness :
    (Solid.render (some "#fff") none 0 0 1 1 500 500).tex = some (10, 10) ∧
    (Solid.render (some "#fff") none 0 0 1 1 500 500).fwd = some (1 / 50, 1 / 50) ∧
    (Solid.render (some "#fff") none 0 0 1 1 500 500).rev = some (50, 50) := by
  have hw : Solid.effWidth 0 0 1 500 500 = 500 := by
    rw [Solid.effWidth]
    norm_num
  have hh : Solid.effHeight 0 0 1 500 500 = 500 := by
    rw [Solid.effHeight]
    norm_num
  have h := (solid_render_swatch (some "#fff") none 0 0 1 1 500 500 "#fff" rfl
    (by rw [hw]; norm_num) (by rw [hh]; norm_num)).2
    (by rw [hw]; norm_num) (by rw [hh]; norm_num)
  rw [hw, hh] at h
  exact ⟨h.1, by rw [h.2.1]; norm_num, by rw [h.2.2.1]; norm_num⟩

end Imagelike
